import Mathlib

/-!
Verification development for the datadog-agent excerpt: the security
probe's mount resolver (the third document of
`pkg/network/ebpf/c/https.h`, lines 770-1332, package `probe`), the netflow
metric conversion (`pkg/netflow/goflowlib/metric.go`) and the docker-proxy
process filtering (`pkg/process/metadata/parser/dockerproxy.go`).

All three are shallow embeddings of the Go source.  Go pointers become
`Option`/serial-tagged records, `uint32` becomes `Nat`, time becomes an
abstract `Nat`, and the external mount-info provider
(`kernel.ParseMountInfoFile` plus `newMountFromMountInfo`) is a function
parameter.  A few leaf helpers whose bodies live outside the excerpt are
modelled from the spec and say so in their doc comments.
-/

/-- Go `strings.HasSuffix`: character-list implementation so that concrete
instances reduce inside the kernel. -/
def strEndsWith (s suffix : String) : Bool :=
  suffix.data.isSuffixOf s.data

/-- Go `strings.HasPrefix`: character-list implementation. -/
def strStartsWith (s pre : String) : Bool :=
  pre.data.isPrefixOf s.data

/-- Drop the first `n` characters of a string. -/
def strDrop (s : String) (n : Nat) : String :=
  String.mk (s.data.drop n)

/-- Helper for `splitOnSpace`: `acc` holds the current field reversed. -/
def splitOnSpaceAux : List Char → List Char → List String
  | [], acc => [String.mk acc.reverse]
  | c :: rest, acc =>
    if c = ' ' then String.mk acc.reverse :: splitOnSpaceAux rest []
    else splitOnSpaceAux rest (c :: acc)

/-- Go `strings.Split(s, " ")`: split on every single space, keeping empty
fields; the empty string yields `[""]`. -/
def splitOnSpace (s : String) : List String :=
  splitOnSpaceAux s.data []

namespace MountResolver

/-- Embeds `model.Mount` (the fields the resolver reads; see
`newMountFromMountInfo`, https.h:831).  Go `uint32` identifiers are
modelled as `Nat`; the resolver only compares them, so no overflow
arithmetic occurs. -/
structure Mount where
  mountID : Nat
  parentMountID : Nat
  groupID : Nat
  device : Nat
  mountPointStr : String
  rootStr : String
  fsType : String
  deriving DecidableEq, Repr

/-- Modelled from the spec (glossary): `model.Mount.IsOverlayFS`, whose
body lives in `pkg/security/secl/model` outside this excerpt — a mount is
an overlay filesystem when its `fsType` says so. -/
def Mount.isOverlayFS (m : Mount) : Bool :=
  m.fsType == "overlay"

/-- A stored `*model.Mount`: the record plus an allocation serial modelling
Go pointer identity — `insert` stores a fresh pointer (`&e`, https.h:1015)
and `dequeue` compares the queued pointer against the stored one
(https.h:1114). -/
structure StoredMount where
  record : Mount
  serial : Nat
  deriving DecidableEq, Repr

/-- The resolver's error values `ErrMountNotFound` and `ErrMountUndefined`
(https.h:802-807), plus the kind the spec names for provider failures
surfaced during a re-sync. -/
inductive ResolverErr where
  | MountNotFound
  | MountUndefined
  | ResolutionFailure
  deriving DecidableEq, Repr

/-- The two maps of `MountResolver` (https.h:858-859): `mounts` from mount
ID to record, and `devices` from device ID to the per-device bucket of
records sharing that device.  Both Go maps are association lists here. -/
structure MountTable where
  mounts : List StoredMount
  devices : List (Nat × List StoredMount)
  deriving Repr

/-- Read the device-keyed secondary index at one device key (a missing key
reads as the empty bucket, like a nil Go map). -/
def devGet : List (Nat × List StoredMount) → Nat → List StoredMount
  | [], _ => []
  | (k, l) :: rest, d => if k = d then l else devGet rest d

/-- Replace the bucket stored under one device key. -/
def devSet (ds : List (Nat × List StoredMount)) (d : Nat) (l : List StoredMount) :
    List (Nat × List StoredMount) :=
  (d, l) :: ds.filter (fun p => p.1 != d)

/-- Add a record to its device bucket (`deviceMounts[e.MountID] = &e`,
https.h:1015). -/
def devAdd (ds : List (Nat × List StoredMount)) (d : Nat) (m : StoredMount) :
    List (Nat × List StoredMount) :=
  devSet ds d (m :: devGet ds d)

/-- Remove the record with the given mount ID from one device bucket
(`delete(mounts, mount.MountID)`, https.h:934). -/
def devDel (ds : List (Nat × List StoredMount)) (d : Nat) (mid : Nat) :
    List (Nat × List StoredMount) :=
  devSet ds d ((devGet ds d).filter (fun x => x.record.mountID != mid))

/-- Primary-map lookup, `mr.mounts[mountID]`. -/
def lookupMount (t : MountTable) (mid : Nat) : Option StoredMount :=
  t.mounts.find? (fun m => m.record.mountID == mid)

/-- The removal half of `delete` (https.h:930-935): delete the record from
the primary map and from its device bucket. -/
def removeEntry (t : MountTable) (mid : Nat) : MountTable :=
  match lookupMount t mid with
  | none => t
  | some m =>
    { mounts := t.mounts.filter (fun x => x.record.mountID != mid),
      devices := devDel t.devices m.record.device mid }

/-- The IDs the tail of `delete` cascades to (https.h:937-938):
`deleteChildren` visits every live record whose `parentMountID` equals the
removed record's mount ID, and `deleteDevice`, only for an
overlay-filesystem record, visits the other records of its device
bucket. -/
def cascadeTargets (t : MountTable) (m : StoredMount) : List Nat :=
  ((t.mounts.filter fun x => x.record.parentMountID == m.record.mountID).map
    fun x => x.record.mountID)
  ++ (if m.record.isOverlayFS then
        ((devGet t.devices m.record.device).filter fun x =>
            x.record.device == m.record.device && x.record.mountID != m.record.mountID).map
          fun x => x.record.mountID
      else [])

/-- Embeds `delete` (https.h:928): remove the entry from both maps, then
recursively delete the children and, for an overlay mount, the device
siblings.  The lookup guard mirrors `deleteChildren`'s existence re-check
during the cascade; `fuel` bounds the cascade nesting depth and one unit is
consumed only when a record is actually removed, so a fuel of table
size + 1 always suffices. -/
def removeStep : Nat → MountTable → Nat → MountTable
  | 0, t, _ => t
  | Nat.succ fuel, t, mid =>
    match lookupMount t mid with
    | none => t
    | some m =>
      let t1 := removeEntry t mid
      (cascadeTargets t1 m).foldl (removeStep fuel) t1

/-- Embeds `delete` at the canonical (always sufficient) fuel: the true removal of
one record with its full recursive cascade, as run by `insert` on
replacement and by `dequeue` at sweep expiry. -/
def removeRecord (t : MountTable) (mid : Nat) : MountTable :=
  removeStep (t.mounts.length + 1) t mid

/-- Embeds `_getParentPath` (https.h:1020): look the mount up (missing
yields ""), abort with "" on an already-visited mount ID, then recurse on a
nonzero `parentMountID`; an empty parent path yields the mount's own
fragment, and the parent path is prepended only when it is not "/" and the
mount's own `MountPointStr` does not already start with it.  `fuel` models
the call stack: claim C3 shows any stack of at least the number of
unvisited mount IDs plus one behaves identically, on every table including
cyclic ones. -/
def getParentPathFuel : Nat → MountTable → List Nat → Nat → String
  | 0, _, _, _ => ""
  | Nat.succ fuel, t, visited, mid =>
    match lookupMount t mid with
    | none => ""
    | some mount =>
      if visited.contains mid then ""
      else if mount.record.parentMountID != 0 then
        let p := getParentPathFuel fuel t (mid :: visited) mount.record.parentMountID
        if p == "" then mount.record.mountPointStr
        else if p != "/" && !(strStartsWith mount.record.mountPointStr p) then
          p ++ mount.record.mountPointStr
        else mount.record.mountPointStr
      else mount.record.mountPointStr

/-- Number of live mount IDs not yet in the visited set: the bound on the
depth of the `_getParentPath` recursion. -/
def unvisitedCount (t : MountTable) (visited : List Nat) : Nat :=
  ((t.mounts.map fun m => m.record.mountID).filter
    (fun k => !(visited.contains k))).length

/-- Embeds `getParentPath` (https.h:1047) without its LRU memo layer:
`_getParentPath` with a fresh visited map.  `clearCacheForMountID` keeps
the LRU in sync with every mutation, so the memo is observationally a
cache of this recomputation. -/
def getParentPath (t : MountTable) (mid : Nat) : String :=
  getParentPathFuel (unvisitedCount t [] + 1) t [] mid

/-- Embeds `_getAncestor` (https.h:1057): abort on an already-visited
mount ID (keyed by the current mount's ID), look up the parent (missing
yields none), and return the furthest resolvable ancestor. -/
def getAncestorFuel : Nat → MountTable → List Nat → StoredMount → Option StoredMount
  | 0, _, _, _ => none
  | Nat.succ fuel, t, visited, mount =>
    if visited.contains mount.record.mountID then none
    else
      match lookupMount t mount.record.parentMountID with
      | none => none
      | some parent =>
        match getAncestorFuel fuel t (mount.record.mountID :: visited) parent with
        | none => some parent
        | some grandParent => some grandParent

/-- Embeds `getAncestor` (https.h:1075) at an always-sufficient stack
bound (the visited set grows at each level, so the depth never exceeds the
number of distinct mount IDs plus one for the starting mount). -/
def getAncestor (t : MountTable) (m : StoredMount) : Option StoredMount :=
  getAncestorFuel (t.mounts.length + 2) t [] m

/-- The scan of `getOverlayPath`'s loop (https.h:1089-1096): the first
device-bucket sibling with a different mount ID, an overlay `fsType`, and a
non-empty resolved parent path wins; siblings with an empty parent path are
skipped. -/
def overlayScan (t : MountTable) (mid : Nat) : List StoredMount → String
  | [] => ""
  | deviceMount :: rest =>
    if mid != deviceMount.record.mountID && deviceMount.record.isOverlayFS then
      let p := getParentPath t deviceMount.record.mountID
      if p != "" then p else overlayScan t mid rest
    else overlayScan t mid rest

/-- Embeds `getOverlayPath` (https.h:1080) without its LRU memo layer:
replace the mount by its furthest ancestor when one exists, then scan that
mount's device bucket for an overlay sibling. -/
def getOverlayPath (t : MountTable) (mount0 : StoredMount) : String :=
  let mount :=
    match getAncestor t mount0 with
    | some ancestor => ancestor
    | none => mount0
  overlayScan t mount.record.mountID (devGet t.devices mount.record.device)

/-- Embeds `deleteDelayTime = 5 * time.Second` (https.h:810); time is an abstract
`Nat` in seconds. -/
def mountGracePeriod : Nat := 5

/-- Embeds `deleteRequest` (https.h:849): the scheduled record instance and
its grace deadline. -/
structure DeleteRequest where
  mount : StoredMount
  timeoutAt : Nat
  deriving Repr

/-- The `MountResolver` state (https.h:855): the two maps, the delete
queue, a serial counter modelling pointer allocation, and the four stats
counters.  The two LRU path caches are omitted: they memoize
`getParentPath`/`getOverlayPath` results and `clearCacheForMountID` is
called on every mutation of the cached ID, so the model recomputes
instead. -/
structure State where
  table : MountTable
  deleteQueue : List DeleteRequest
  nextSerial : Nat
  hits : Nat
  misses : Nat
  procHits : Nat
  procMisses : Nat

/-- Embeds `NewMountResolver` (https.h:1309): everything empty, counters zero. -/
def emptyState : State :=
  { table := { mounts := [], devices := [] },
    deleteQueue := [], nextSerial := 0,
    hits := 0, misses := 0, procHits := 0, procMisses := 0 }

/-- The two stores at the end of `insert` (https.h:1010-1017): add the
record to its device bucket and to the primary map. -/
def insertEntry (t : MountTable) (m : StoredMount) : MountTable :=
  { mounts := m :: t.mounts, devices := devAdd t.devices m.record.device m }

/-- Go `strings.TrimPrefix`: drop the prefix when present, else return the
string unchanged. -/
def goTrimPrefix (s pre : String) : String :=
  if strStartsWith s pre then strDrop s pre.length else s

/-- Embeds the internal `insert` (https.h:995): delete any previous record
with the same mount ID first (`mr.delete(prev)` — full delete semantics,
cascades included), then, when the parent is present, strip its resolved
parent path from the event's `MountPointStr` if that prefix is non-empty
and not "/", and store the record in both maps under a fresh serial.  The
exported `Insert` (https.h:981) only adds a validation of the event's
path-resolution error fields, which belong to the kernel-event
collaborator. -/
def Insert (s : State) (e : Mount) : State :=
  let t1 := removeRecord s.table e.mountID
  let e' :=
    match lookupMount t1 e.parentMountID with
    | none => e
    | some p =>
      let pre := getParentPath t1 p.record.mountID
      if pre != "" && pre != "/" then
        { e with mountPointStr := goTrimPrefix e.mountPointStr pre }
      else e
  { s with
    table := insertEntry t1 { record := e', serial := s.nextSerial },
    nextSerial := s.nextSerial + 1 }

/-- Embeds the exported `Delete` (https.h:942): clear the caches for the ID
(a no-op in this cache-free model), return `MountNotFound` when the ID is
not live, and otherwise only append the stored record to the delete queue
with the grace deadline — the table itself is not touched. -/
def Delete (s : State) (mid : Nat) (now : Nat) : State × Except ResolverErr Unit :=
  match lookupMount s.table mid with
  | none => (s, .error .MountNotFound)
  | some m =>
    ({ s with
       deleteQueue := s.deleteQueue ++ [{ mount := m, timeoutAt := now + mountGracePeriod }] },
     .ok ())

/-- Embeds `syncCache` (https.h:879).  The provider stands for
`kernel.ParseMountInfoFile` plus `newMountFromMountInfo`, both reading
kernel data outside this excerpt: `none` models their failure (modelled
from the spec as the resolution-failure error kind).  On success, each
record whose mount ID is already live is skipped; the rest are inserted. -/
def syncCache (provider : Nat → Option (List Mount)) (s : State) (pid : Nat) :
    State × Except ResolverErr Unit :=
  match provider pid with
  | none => (s, .error .ResolutionFailure)
  | some mnts =>
    (mnts.foldl
      (fun s' mnt =>
        match lookupMount s'.table mnt.mountID with
        | some _ => s'
        | none => Insert s' mnt) s,
     .ok ())

/-- Embeds `resolveMount` (https.h:1155): mount ID 0 is always the
`MountUndefined` error and short-circuits before touching any state; a
primary hit bumps the hit counter; a miss bumps the miss counter and, for a
nonzero pid, re-syncs through the provider (propagating its failure) and
retries the lookup once, bumping the process-lookup counters; a final nil
mount is the `MountNotFound` error. -/
def resolveMount (provider : Nat → Option (List Mount)) (s : State) (mid pid : Nat) :
    State × Except ResolverErr StoredMount :=
  if mid = 0 then (s, .error .MountUndefined)
  else
    match lookupMount s.table mid with
    | some m => ({ s with hits := s.hits + 1 }, .ok m)
    | none =>
      let s1 := { s with misses := s.misses + 1 }
      if pid = 0 then (s1, .error .MountNotFound)
      else
        match syncCache provider s1 pid with
        | (s2, .error e) => (s2, .error e)
        | (s2, .ok _) =>
          match lookupMount s2.table mid with
          | some m => ({ s2 with procHits := s2.procHits + 1 }, .ok m)
          | none => ({ s2 with procMisses := s2.procMisses + 1 }, .error .MountNotFound)

/-- Embeds the exported `Get` (https.h:972): `mount, _ :=
mr.resolveMount(mountID, pid)` — the resolution error is discarded and only
the (possibly nil) mount is returned. -/
def Get (provider : Nat → Option (List Mount)) (s : State) (mid pid : Nat) :
    State × Option StoredMount :=
  match resolveMount provider s mid pid with
  | (s', .ok m) => (s', some m)
  | (s', .error _) => (s', none)

/-- Embeds `GetMountPath` (https.h:1189): resolve the mount (with the pid
re-sync fallback); on any resolution error return empty-string path fields
together with a nil error; on success return the overlay path, the parent
path and the root path. -/
def GetMountPath (provider : Nat → Option (List Mount)) (s : State) (mid pid : Nat) :
    State × (String × String × String × Option ResolverErr) :=
  let r := resolveMount provider s mid pid
  match r.2 with
  | .error _ => (r.1, ("", "", "", none))
  | .ok mount =>
    (r.1, (getOverlayPath r.1.table mount, getParentPath r.1.table mid,
           mount.record.rootStr, none))

/-- Embeds `GetMountPointFullPath` (https.h:1201): "" for mount ID 0, else
the resolved parent path. -/
def GetMountPointFullPath (s : State) (mid : Nat) : String :=
  if mid = 0 then "" else getParentPath s.table mid

/-- Embeds the loop of `dequeue` (https.h:1101): walk the delete queue in
order, stopping at the first entry whose deadline is still in the future
(`req.timeoutAt.After(now)`, i.e. `now < timeoutAt`); each due entry is
truly removed — with cascades — only when the record currently stored under
its ID is still the scheduled instance; processed entries are trimmed from
the front. -/
def sweepQueue : List DeleteRequest → MountTable → Nat → MountTable × List DeleteRequest
  | [], t, _ => (t, [])
  | req :: rest, t, now =>
    if now < req.timeoutAt then (t, req :: rest)
    else
      let t1 :=
        match lookupMount t req.mount.record.mountID with
        | some cur =>
          if cur.serial == req.mount.serial then removeRecord t req.mount.record.mountID
          else t
        | none => t
      sweepQueue rest t1 now

/-- Embeds `dequeue` as a state transformer: the periodic sweep the 2-second
ticker of `Start` (https.h:1139) drives. -/
def Sweep (s : State) (now : Nat) : State :=
  let r := sweepQueue s.deleteQueue s.table now
  { s with table := r.1, deleteQueue := r.2 }

/-- A mutating operation of the resolver, for stating invariants over every
operation sequence. -/
inductive Op where
  | insert (e : Mount)
  | delete (mid : Nat) (now : Nat)
  | sweep (now : Nat)

/-- Apply one mutating operation. -/
def applyOp (s : State) : Op → State
  | .insert e => Insert s e
  | .delete mid now => (Delete s mid now).1
  | .sweep now => Sweep s now

/-- Run a sequence of mutating operations from the empty resolver. -/
def runOps (ops : List Op) : State :=
  ops.foldl applyOp emptyState

/-- The consistency invariant between the primary map and the device-keyed
secondary index: mount IDs are unique among live records; every entry of a
device bucket is a live record stored under its own device key; every live
record appears in its device bucket; and no device bucket holds two
entries for the same mount ID. -/
def tableInvariant (t : MountTable) : Prop :=
  ((t.mounts.map fun m => m.record.mountID).Nodup) ∧
  (∀ d m, m ∈ devGet t.devices d → m.record.device = d ∧ m ∈ t.mounts) ∧
  (∀ m, m ∈ t.mounts → m ∈ devGet t.devices m.record.device) ∧
  (∀ d, ((devGet t.devices d).map fun m => m.record.mountID).Nodup)

end MountResolver

namespace MountResolver

/-! Lemmas about the mount table and the cascading removal. -/

theorem mem_mounts_removeEntry {t : MountTable} {mid : Nat} {x : StoredMount}
    (hx : x ∈ (removeEntry t mid).mounts) : x ∈ t.mounts := by
  unfold removeEntry at hx
  cases h : lookupMount t mid with
  | none => rw [h] at hx; exact hx
  | some m => rw [h] at hx; exact (List.mem_filter.mp hx).1

theorem mem_mounts_foldl {α : Type} {f : MountTable → α → MountTable}
    (hf : ∀ t a x, x ∈ (f t a).mounts → x ∈ t.mounts) :
    ∀ (l : List α) (t : MountTable) (x : StoredMount),
      x ∈ (l.foldl f t).mounts → x ∈ t.mounts := by
  intro l
  induction l with
  | nil => intro t x hx; exact hx
  | cons a l ih => intro t x hx; exact hf _ _ _ (ih _ _ hx)

theorem mem_mounts_removeStep :
    ∀ (fuel : Nat) (t : MountTable) (mid : Nat) (x : StoredMount),
      x ∈ (removeStep fuel t mid).mounts → x ∈ t.mounts := by
  intro fuel
  induction fuel with
  | zero => intro t mid x hx; exact hx
  | succ fuel ih =>
    intro t mid x hx
    unfold removeStep at hx
    cases h : lookupMount t mid with
    | none => rw [h] at hx; exact hx
    | some m =>
      rw [h] at hx
      exact mem_mounts_removeEntry (mem_mounts_foldl ih _ _ _ hx)

theorem lookupMount_eq_none_iff {t : MountTable} {mid : Nat} :
    lookupMount t mid = none ↔ ∀ x ∈ t.mounts, x.record.mountID ≠ mid := by
  unfold lookupMount
  rw [List.find?_eq_none]
  constructor
  · intro h x hx hEq
    exact h x hx (by simpa using hEq)
  · intro h x hx hb
    exact h x hx (by simpa using hb)

theorem lookupMount_none_of_subset {t t' : MountTable} {mid : Nat}
    (hsub : ∀ x ∈ t'.mounts, x ∈ t.mounts)
    (h : lookupMount t mid = none) : lookupMount t' mid = none :=
  lookupMount_eq_none_iff.mpr fun x hx =>
    lookupMount_eq_none_iff.mp h x (hsub x hx)

theorem lookupMount_removeEntry_self (t : MountTable) (mid : Nat) :
    lookupMount (removeEntry t mid) mid = none := by
  unfold removeEntry
  cases h : lookupMount t mid with
  | none => exact h
  | some m =>
    apply lookupMount_eq_none_iff.mpr
    intro x hx
    have := (List.mem_filter.mp hx).2
    simpa using this

theorem lookupMount_removeStep_none {fuel : Nat} {t : MountTable} {mid mid2 : Nat}
    (h : lookupMount t mid = none) :
    lookupMount (removeStep fuel t mid2) mid = none :=
  lookupMount_none_of_subset (fun x hx => mem_mounts_removeStep fuel t mid2 x hx) h

theorem lookupMount_foldl_none {fuel : Nat} {mid : Nat} :
    ∀ (ids : List Nat) (t : MountTable),
      lookupMount t mid = none →
      lookupMount (ids.foldl (removeStep fuel) t) mid = none := by
  intro ids
  induction ids with
  | nil => intro t h; exact h
  | cons a ids ih => intro t h; exact ih _ (lookupMount_removeStep_none h)

theorem lookupMount_removeStep_self {fuel : Nat} (hfuel : 1 ≤ fuel)
    (t : MountTable) (mid : Nat) :
    lookupMount (removeStep fuel t mid) mid = none := by
  cases fuel with
  | zero => omega
  | succ fuel =>
    unfold removeStep
    cases h : lookupMount t mid with
    | none => exact h
    | some m =>
      exact lookupMount_foldl_none _ _ (lookupMount_removeEntry_self t mid)

/-- Every mount ID in the processed worklist is absent afterwards. -/
theorem lookupMount_foldl_removed {fuel : Nat} (hfuel : 1 ≤ fuel) {mid : Nat} :
    ∀ (ids : List Nat) (t : MountTable), mid ∈ ids →
      lookupMount (ids.foldl (removeStep fuel) t) mid = none := by
  intro ids
  induction ids with
  | nil => intro t h; cases h
  | cons a ids ih =>
    intro t h
    rcases List.mem_cons.mp h with h | h
    · subst h
      exact lookupMount_foldl_none ids (removeStep fuel t mid)
        (lookupMount_removeStep_self hfuel t mid)
    · exact ih _ h

theorem lookupMount_mountID {t : MountTable} {mid : Nat} {m : StoredMount}
    (h : lookupMount t mid = some m) : m.record.mountID = mid := by
  unfold lookupMount at h
  simpa using List.find?_some h

theorem mem_of_lookupMount {t : MountTable} {mid : Nat} {m : StoredMount}
    (h : lookupMount t mid = some m) : m ∈ t.mounts :=
  List.mem_of_find?_eq_some h


/-- Unfolding `removeRecord` one level at a live record: any ID among the
record's cascade targets is absent from the result. -/
theorem lookupMount_removeRecord_cascade {t : MountTable} {mid : Nat} {pm : StoredMount}
    (hpm : lookupMount t mid = some pm) {cid : Nat}
    (hmem : cid ∈ cascadeTargets (removeEntry t mid) pm) :
    lookupMount (removeRecord t mid) cid = none := by
  have hn1 : 1 ≤ t.mounts.length :=
    List.length_pos.mpr (List.ne_nil_of_mem (mem_of_lookupMount hpm))
  show lookupMount (removeStep (t.mounts.length + 1) t mid) cid = none
  unfold removeStep
  rw [hpm]
  exact lookupMount_foldl_removed hn1 _ _ hmem

end MountResolver

namespace Goflowlib

/-! Shallow embedding of `pkg/netflow/goflowlib/metric.go` (the final
version of the file, whose `ConvertMetric` returns a datadog metric type).
Prometheus protobuf pointers become `Option`; `float64` sample values are
carried through unchanged by the Go code, so they are modelled exactly as
`Rat` (no floating-point arithmetic occurs). -/

/-- The `prometheus/client_model` metric type enum. -/
inductive PromMetricType where
  | counter
  | gauge
  | summary
  | untyped
  | histogram
  deriving DecidableEq, Repr

/-- Numeric value of the protobuf enum (`int32(metricType)`). -/
def PromMetricType.toInt : PromMetricType → Int
  | .counter => 0
  | .gauge => 1
  | .summary => 2
  | .untyped => 3
  | .histogram => 4

/-- Embeds `promClient.MetricType_name`: protobuf name of each enum value. -/
def promMetricTypeName : PromMetricType → String
  | .counter => "COUNTER"
  | .gauge => "GAUGE"
  | .summary => "SUMMARY"
  | .untyped => "UNTYPED"
  | .histogram => "HISTOGRAM"

/-- Embeds `promClient.LabelPair`: both fields are pointers in Go. -/
structure LabelPair where
  name : Option String
  value : Option String

/-- Embeds `promClient.Metric`, restricted to the fields `ConvertMetric` reads. -/
structure Metric where
  counter : Option Rat
  gauge : Option Rat
  label : List LabelPair

/-- Embeds `promClient.MetricFamily`, restricted to the fields `ConvertMetric`
reads. -/
structure MetricFamily where
  name : Option String
  mtype : Option PromMetricType

/-- Protobuf getter: nil name reads as "". -/
def MetricFamily.getName (mf : MetricFamily) : String :=
  mf.name.getD ""

/-- Protobuf getter: nil type reads as the enum's zero value, COUNTER. -/
def MetricFamily.getType (mf : MetricFamily) : PromMetricType :=
  mf.mtype.getD .counter

/-- Protobuf getter chain `metric.GetCounter().GetValue()`. -/
def Metric.getCounterValue (m : Metric) : Rat :=
  m.counter.getD 0

/-- Protobuf getter chain `metric.GetGauge().GetValue()`. -/
def Metric.getGaugeValue (m : Metric) : Rat :=
  m.gauge.getD 0

/-- Protobuf getters on a label pair. -/
def LabelPair.getName (lp : LabelPair) : String :=
  lp.name.getD ""

def LabelPair.getValue (lp : LabelPair) : String :=
  lp.value.getD ""

/-! `pkg/metrics` datadog metric types used by `ConvertMetric`; the Go type
is an integer enum whose zero value is `GaugeType`. -/

namespace metrics

def GaugeType : Nat := 0

def MonotonicCountType : Nat := 3

end metrics

/-- Embeds `mappedMetric` from metric.go; `remapperType` is `String → String`. -/
structure mappedMetric where
  name : String
  allowedTagKeys : List String
  valueRemapper : List (String × (String → String)) := []
  keyRemapper : List (String × String) := []
  extraTags : List String := []

/-- Embeds `mappedMetric.isAllowedTagKey`: linear scan over `allowedTagKeys`. -/
def isAllowedTagKey (m : mappedMetric) (tagKey : String) : Bool :=
  m.allowedTagKeys.any (fun allowedTagKey => tagKey == allowedTagKey)

/-- Go map read `m[k]`, which yields "" for a missing key. -/
def mapGetD (m : List (String × String)) (k : String) : String :=
  (((m.find? fun p => p.1 == k).map fun p => p.2).getD "")

def typeMapper : List (String × String) :=
  [("NetFlowV5", "netflow5")]

def flowsetMapper : List (String × String) :=
  [("DataFlowSet", "data_flow_set")]

def netflowVersionMapper : List (String × String) :=
  [("5", "netflow5")]

def sflowVersionMapper : List (String × String) :=
  [("5", "sflow5")]

def remapGoflowType (goflowType : String) : String :=
  mapGetD typeMapper goflowType

def remapFlowset (flowset : String) : String :=
  mapGetD flowsetMapper flowset

def remapNetFlowVersion (version : String) : String :=
  mapGetD netflowVersionMapper version

def remapSFlowVersion (version : String) : String :=
  mapGetD sflowVersionMapper version

/-- Embeds `metricNameMapping`: maps goflow prometheus metric names to datadog
netflow telemetry metrics. -/
def metricNameMapping : List (String × mappedMetric) :=
  [("flow_decoder_count",
    { name := "decoder.messages",
      allowedTagKeys := ["name", "worker"],
      valueRemapper := [("name", remapGoflowType)] }),
   ("flow_decoder_error_count",
    { name := "decoder.errors",
      allowedTagKeys := ["name", "worker"],
      valueRemapper := [("name", remapGoflowType)] }),
   ("flow_process_nf_count",
    { name := "processor.flows",
      allowedTagKeys := ["router", "version"],
      valueRemapper := [("version", remapNetFlowVersion)],
      keyRemapper := [("router", "device_ip"), ("version", "flow_type")] }),
   ("flow_process_nf_flowset_sum",
    { name := "processor.flowsets",
      allowedTagKeys := ["router", "type", "version"],
      valueRemapper := [("type", remapFlowset), ("version", remapNetFlowVersion)],
      keyRemapper := [("router", "device_ip"), ("version", "flow_type")] }),
   ("flow_traffic_bytes",
    { name := "traffic.bytes",
      allowedTagKeys := ["local_port", "remote_ip", "name"],
      keyRemapper := [("local_port", "listener_port"), ("remote_ip", "device_ip"),
                      ("name", "flow_type")],
      valueRemapper := [("name", remapGoflowType)] }),
   ("flow_traffic_packets",
    { name := "traffic.packets",
      allowedTagKeys := ["local_port", "remote_ip", "name"],
      keyRemapper := [("local_port", "listener_port"), ("remote_ip", "device_ip"),
                      ("name", "flow_type")],
      valueRemapper := [("name", remapGoflowType)] }),
   ("flow_process_sf_count",
    { name := "processor.flows",
      allowedTagKeys := ["router", "version"],
      valueRemapper := [("version", remapSFlowVersion)],
      keyRemapper := [("router", "device_ip"), ("version", "flow_type")] }),
   ("flow_process_sf_errors_count",
    { name := "processor.errors",
      allowedTagKeys := ["router", "error"],
      keyRemapper := [("router", "device_ip")] })]

/-- Lookup in the (Go map) `metricNameMapping`. -/
def lookupMapping (name : String) : Option mappedMetric :=
  ((metricNameMapping.find? fun p => p.1 == name).map fun p => p.2)

/-- The Go multi-value return of `ConvertMetric` as a structure. -/
structure ConvertOut where
  ddType : Nat
  name : String
  value : Rat
  tags : List String
  err : Option String

/-- One iteration of `ConvertMetric`'s label loop. -/
def convertLabelStep (aMappedMetric : mappedMetric) (tags : List String)
    (labelPair : LabelPair) : List String :=
  let tagKey := labelPair.getName
  if !(isAllowedTagKey aMappedMetric tagKey) then tags
  else
    let tagVal := labelPair.getValue
    let tagVal :=
      match (aMappedMetric.valueRemapper.find? fun p => p.1 == tagKey) with
      | some p => p.2 tagVal
      | none => tagVal
    let tagKey :=
      match (aMappedMetric.keyRemapper.find? fun p => p.1 == tagKey) with
      | some p => p.2
      | none => tagKey
    if tagKey != "" && tagVal != "" then tags ++ [tagKey ++ ":" ++ tagVal]
    else tags

/-- Embeds `ConvertMetric` from metric.go: map a goflow prometheus metric to a
datadog metric type, name, value and tag list, or an error. -/
def ConvertMetric (metric : Metric) (metricFamily : MetricFamily) : ConvertOut :=
  let origMetricName := metricFamily.getName
  match lookupMapping origMetricName with
  | none =>
    { ddType := 0, name := "", value := 0, tags := [],
      err := some ("metric mapping not found for " ++ origMetricName) }
  | some aMappedMetric =>
    let promMetricType := metricFamily.getType
    match promMetricType with
    | .counter =>
      let floatValue := metric.getCounterValue
      let tags := metric.label.foldl (convertLabelStep aMappedMetric) []
      let tags :=
        if aMappedMetric.extraTags.length > 0 then tags ++ aMappedMetric.extraTags
        else tags
      { ddType := metrics.MonotonicCountType, name := aMappedMetric.name,
        value := floatValue, tags := tags, err := none }
    | .gauge =>
      let floatValue := metric.getGaugeValue
      let tags := metric.label.foldl (convertLabelStep aMappedMetric) []
      let tags :=
        if aMappedMetric.extraTags.length > 0 then tags ++ aMappedMetric.extraTags
        else tags
      { ddType := metrics.GaugeType, name := aMappedMetric.name,
        value := floatValue, tags := tags, err := none }
    | other =>
      { ddType := 0, name := "", value := 0, tags := [],
        err := some ("metric type `" ++ promMetricTypeName other ++ "` (" ++
                     toString other.toInt ++ ") not supported") }

/-- The tag contributed by one label, as claim C8 reads the loop: labels
with a non-allowed key contribute nothing; the value is remapped first, then
the key; a key or value that is empty after remapping contributes
nothing. -/
def tagOfLabel (aMappedMetric : mappedMetric) (labelPair : LabelPair) : Option String :=
  let tagKey := labelPair.getName
  if !(isAllowedTagKey aMappedMetric tagKey) then none
  else
    let tagVal := labelPair.getValue
    let tagVal :=
      match (aMappedMetric.valueRemapper.find? fun p => p.1 == tagKey) with
      | some p => p.2 tagVal
      | none => tagVal
    let tagKey :=
      match (aMappedMetric.keyRemapper.find? fun p => p.1 == tagKey) with
      | some p => p.2
      | none => tagKey
    if tagKey != "" && tagVal != "" then some (tagKey ++ ":" ++ tagVal)
    else none

end Goflowlib

namespace DockerProxy

/-! Shallow embedding of `extractProxyTarget` from
`pkg/process/metadata/parser/dockerproxy.go`.  Go `int32` values are
modelled as `Int` together with the explicit range check that
`strconv.ParseInt(…, 10, 32)` performs. -/

/-- The `model.ConnectionType` protobuf enum (`tcp = 0`, `udp = 1`). -/
inductive ConnectionType where
  | tcp
  | udp
  deriving DecidableEq, Repr

/-- Embeds `model.ConnectionType_value`: protobuf name to enum value. -/
def connectionTypeValue (name : String) : Option ConnectionType :=
  if name == "tcp" then some .tcp
  else if name == "udp" then some .udp
  else none

/-- Embeds `model.ContainerAddr`. -/
structure ContainerAddr where
  ip : String
  port : Int
  protocol : ConnectionType
  deriving DecidableEq, Repr

/-- Embeds `procutil.Process`, restricted to the fields `extractProxyTarget`
reads. -/
structure Process where
  pid : Int
  cmdline : List String

/-- Embeds `parser.Proxy`. -/
structure Proxy where
  pid : Int
  ip : String
  target : ContainerAddr
  deriving DecidableEq, Repr

/-- Decimal digit test on the character's code point. -/
def isDecDigit (c : Char) : Bool :=
  48 ≤ c.toNat && c.toNat ≤ 57

/-- Digits of a decimal literal, or none when a non-digit occurs or the
string of digits is empty. -/
def parseDecDigits : List Char → Option Nat
  | [] => none
  | cs =>
    cs.foldl
      (fun acc c =>
        match acc with
        | none => none
        | some n => if isDecDigit c then some (n * 10 + (c.toNat - 48)) else none)
      (some 0)

/-- Embeds Go `strconv.ParseInt(s, 10, 32)`: an optional sign followed by at least one
decimal digit, with the value constrained to the `int32` range (the Go
function reports `ErrRange` outside it, which `extractProxyTarget` treats as
failure). -/
def goParseInt32 (s : String) : Option Int :=
  match s.toList with
  | [] => none
  | '+' :: rest =>
    (parseDecDigits rest).bind fun n =>
      if (n : Int) ≤ 2 ^ 31 - 1 then some (n : Int) else none
  | '-' :: rest =>
    (parseDecDigits rest).bind fun n =>
      if (n : Int) ≤ 2 ^ 31 then some (-(n : Int)) else none
  | cs =>
    (parseDecDigits cs).bind fun n =>
      if (n : Int) ≤ 2 ^ 31 - 1 then some (n : Int) else none

/-- The flag loop of `extractProxyTarget`: `for i := 0; i < len(cmd)-1; i++`
switching on `cmd[i]` and consuming `cmd[i+1]` as the flag value; a port
that fails to parse or an unknown protocol name aborts with nil. -/
def parseLoop : List String → ContainerAddr → Option ContainerAddr
  | a :: b :: rest, acc =>
    if a == "-container-ip" then parseLoop (b :: rest) { acc with ip := b }
    else if a == "-container-port" then
      match goParseInt32 b with
      | none => none
      | some port => parseLoop (b :: rest) { acc with port := port }
    else if a == "-proto" then
      match connectionTypeValue b with
      | none => none
      | some proto => parseLoop (b :: rest) { acc with protocol := proto }
    else parseLoop (b :: rest) acc
  | _, acc => some acc

/-- The command line actually scanned: when the process reports a single
argument, it is split on spaces ("Sometimes we get all arguments in the
first element of the slice"). -/
def effectiveCmdline (p : Process) : List String :=
  if p.cmdline.length == 1 then splitOnSpace (p.cmdline.headD "")
  else p.cmdline

/-- Embeds `extractProxyTarget` from dockerproxy.go. -/
def extractProxyTarget (p : Process) : Option Proxy :=
  if p.cmdline.length == 0 then none
  else
    match effectiveCmdline p with
    | [] => none
    | c0 :: rest =>
      if !(strEndsWith c0 "docker-proxy") then none
      else
        match parseLoop (c0 :: rest) { ip := "", port := 0, protocol := .tcp } with
        | none => none
        | some target =>
          if target.ip == "" || target.port == 0 then none
          else some { pid := p.pid, ip := "", target := target }

end DockerProxy

namespace MountResolver

/-! Device-index lemmas and the C4 invariant. -/

theorem devGet_filter_ne {ds : List (Nat × List StoredMount)} {d d' : Nat}
    (h : d' ≠ d) :
    devGet (ds.filter fun p => p.1 != d) d' = devGet ds d' := by
  induction ds with
  | nil => rfl
  | cons p ds ih =>
    by_cases hp : p.1 = d
    · have : (p.1 != d) = false := by simpa using hp
      simp only [List.filter_cons, this, Bool.false_eq_true, if_false]
      rw [ih]
      cases p with
      | mk k l =>
        simp only [devGet]
        rw [if_neg]
        intro hk
        exact h (hk ▸ hp)
    · have : (p.1 != d) = true := by simpa using hp
      simp only [List.filter_cons, this, if_true]
      cases p with
      | mk k l =>
        simp only [devGet]
        by_cases hk : k = d'
        · rw [if_pos hk, if_pos hk]
        · rw [if_neg hk, if_neg hk, ih]

theorem devGet_devSet (ds : List (Nat × List StoredMount)) (d : Nat)
    (l : List StoredMount) (d' : Nat) :
    devGet (devSet ds d l) d' = if d = d' then l else devGet ds d' := by
  unfold devSet
  simp only [devGet]
  by_cases hd : d = d'
  · rw [if_pos hd, if_pos hd]
  · rw [if_neg hd, if_neg hd, devGet_filter_ne (fun h => hd h.symm)]

theorem devGet_devAdd (ds : List (Nat × List StoredMount)) (d : Nat)
    (m : StoredMount) (d' : Nat) :
    devGet (devAdd ds d m) d' = if d = d' then m :: devGet ds d' else devGet ds d' := by
  unfold devAdd
  rw [devGet_devSet]
  by_cases hd : d = d'
  · rw [if_pos hd, if_pos hd, hd]
  · rw [if_neg hd, if_neg hd]

theorem devGet_devDel (ds : List (Nat × List StoredMount)) (d : Nat)
    (mid : Nat) (d' : Nat) :
    devGet (devDel ds d mid) d'
      = if d = d' then (devGet ds d').filter (fun x => x.record.mountID != mid)
        else devGet ds d' := by
  unfold devDel
  rw [devGet_devSet]
  by_cases hd : d = d'
  · rw [if_pos hd, if_pos hd, hd]
  · rw [if_neg hd, if_neg hd]

theorem inv_emptyTable : tableInvariant emptyState.table := by
  refine ⟨List.nodup_nil, ?_, ?_, ?_⟩
  · intro d m hm; cases hm
  · intro m hm; cases hm
  · intro d; exact List.nodup_nil

theorem inv_removeEntry {t : MountTable} {mid : Nat} (h : tableInvariant t) :
    tableInvariant (removeEntry t mid) := by
  obtain ⟨h1, h2, h3, h4⟩ := h
  cases hm : lookupMount t mid with
  | none =>
    unfold removeEntry
    rw [hm]
    exact ⟨h1, h2, h3, h4⟩
  | some m =>
    have hmmem : m ∈ t.mounts := mem_of_lookupMount hm
    have hmid : m.record.mountID = mid := lookupMount_mountID hm
    have heq : removeEntry t mid
        = { mounts := t.mounts.filter (fun x => x.record.mountID != mid),
            devices := devDel t.devices m.record.device mid } := by
      unfold removeEntry; rw [hm]
    rw [heq]
    refine ⟨?_, ?_, ?_, ?_⟩
    · exact List.Nodup.sublist ((List.filter_sublist _).map _) h1
    · intro d x hx
      simp only [devGet_devDel] at hx
      by_cases hd : m.record.device = d
      · rw [if_pos hd] at hx
        obtain ⟨hx1, hx2⟩ := List.mem_filter.mp hx
        obtain ⟨hdev, hmem⟩ := h2 d x hx1
        exact ⟨hdev, List.mem_filter.mpr ⟨hmem, hx2⟩⟩
      · rw [if_neg hd] at hx
        obtain ⟨hdev, hmem⟩ := h2 d x hx
        have hxmid : x.record.mountID ≠ mid := by
          intro hxm
          have hxe : x = m :=
            List.inj_on_of_nodup_map h1 hmem hmmem (hxm.trans hmid.symm)
          exact hd (by rw [← hxe, hdev])
        exact ⟨hdev, List.mem_filter.mpr ⟨hmem, by simpa using hxmid⟩⟩
    · intro x hx
      obtain ⟨hmem, hpred⟩ := List.mem_filter.mp hx
      have hx3 := h3 x hmem
      simp only [devGet_devDel]
      by_cases hd : m.record.device = x.record.device
      · rw [if_pos hd]
        exact List.mem_filter.mpr ⟨hx3, hpred⟩
      · rw [if_neg hd]
        exact hx3
    · intro d
      simp only [devGet_devDel]
      by_cases hd : m.record.device = d
      · rw [if_pos hd]
        exact List.Nodup.sublist ((List.filter_sublist _).map _) (h4 d)
      · rw [if_neg hd]
        exact h4 d

theorem inv_insertEntry {t : MountTable} {m : StoredMount}
    (h : tableInvariant t) (habs : lookupMount t m.record.mountID = none) :
    tableInvariant (insertEntry t m) := by
  obtain ⟨h1, h2, h3, h4⟩ := h
  have habs' : ∀ x ∈ t.mounts, x.record.mountID ≠ m.record.mountID :=
    lookupMount_eq_none_iff.mp habs
  refine ⟨?_, ?_, ?_, ?_⟩
  · simp only [insertEntry, List.map_cons]
    refine List.nodup_cons.mpr ⟨?_, h1⟩
    intro hmem
    obtain ⟨x, hx, hxe⟩ := List.mem_map.mp hmem
    exact habs' x hx hxe
  · intro d x hx
    simp only [insertEntry, devGet_devAdd] at hx
    by_cases hd : m.record.device = d
    · rw [if_pos hd] at hx
      rcases List.mem_cons.mp hx with hh | hh
      · subst hh
        exact ⟨hd, List.mem_cons_self _ _⟩
      · obtain ⟨hdev, hmem⟩ := h2 d x hh
        exact ⟨hdev, List.mem_cons_of_mem _ hmem⟩
    · rw [if_neg hd] at hx
      obtain ⟨hdev, hmem⟩ := h2 d x hx
      exact ⟨hdev, List.mem_cons_of_mem _ hmem⟩
  · intro x hx
    simp only [insertEntry, devGet_devAdd]
    rcases List.mem_cons.mp hx with hh | hh
    · subst hh
      rw [if_pos rfl]
      exact List.mem_cons_self _ _
    · have hx3 := h3 x hh
      by_cases hd : m.record.device = x.record.device
      · rw [if_pos hd]
        exact List.mem_cons_of_mem _ hx3
      · rw [if_neg hd]
        exact hx3
  · intro d
    simp only [insertEntry, devGet_devAdd]
    by_cases hd : m.record.device = d
    · rw [if_pos hd]
      simp only [List.map_cons]
      refine List.nodup_cons.mpr ⟨?_, h4 d⟩
      intro hmem
      obtain ⟨x, hx, hxe⟩ := List.mem_map.mp hmem
      obtain ⟨_, hmem'⟩ := h2 d x hx
      exact habs' x hmem' hxe
    · rw [if_neg hd]
      exact h4 d

theorem inv_foldl {fuel : Nat}
    (ih : ∀ t mid, tableInvariant t → tableInvariant (removeStep fuel t mid)) :
    ∀ (ids : List Nat) (t : MountTable),
      tableInvariant t → tableInvariant (ids.foldl (removeStep fuel) t) := by
  intro ids
  induction ids with
  | nil => intro t h; exact h
  | cons a ids ihl => intro t h; exact ihl _ (ih _ _ h)

theorem inv_removeStep :
    ∀ (fuel : Nat) (t : MountTable) (mid : Nat),
      tableInvariant t → tableInvariant (removeStep fuel t mid) := by
  intro fuel
  induction fuel with
  | zero => intro t mid h; exact h
  | succ fuel ih =>
    intro t mid h
    unfold removeStep
    cases hm : lookupMount t mid with
    | none => exact h
    | some m => exact inv_foldl ih _ _ (inv_removeEntry h)

theorem inv_Insert {s : State} {r : Mount} (h : tableInvariant s.table) :
    tableInvariant (Insert s r).table := by
  have habs : lookupMount (removeRecord s.table r.mountID) r.mountID = none :=
    lookupMount_removeStep_self (Nat.le_add_left 1 _) _ _
  unfold Insert
  apply inv_insertEntry (inv_removeStep _ _ _ h)
  split
  · exact habs
  · dsimp only
    split
    · exact habs
    · exact habs

theorem inv_Delete {s : State} {mid now : Nat} (h : tableInvariant s.table) :
    tableInvariant (Delete s mid now).1.table := by
  unfold Delete
  cases hm : lookupMount s.table mid with
  | none => exact h
  | some m => exact h

theorem inv_sweepQueue :
    ∀ (q : List DeleteRequest) (t : MountTable) (now : Nat),
      tableInvariant t → tableInvariant (sweepQueue q t now).1 := by
  intro q
  induction q with
  | nil => intro t now h; exact h
  | cons req rest ih =>
    intro t now h
    unfold sweepQueue
    by_cases hlt : now < req.timeoutAt
    · rw [if_pos hlt]
      exact h
    · rw [if_neg hlt]
      apply ih
      cases hm : lookupMount t req.mount.record.mountID with
      | none => exact h
      | some cur =>
        dsimp only
        by_cases hser : (cur.serial == req.mount.serial) = true
        · rw [if_pos hser]
          exact inv_removeStep _ _ _ h
        · rw [if_neg hser]
          exact h

theorem inv_Sweep {s : State} {now : Nat} (h : tableInvariant s.table) :
    tableInvariant (Sweep s now).table :=
  inv_sweepQueue s.deleteQueue s.table now h

theorem inv_runOps :
    ∀ (ops : List Op) (s : State),
      tableInvariant s.table → tableInvariant (ops.foldl applyOp s).table := by
  intro ops
  induction ops with
  | nil => intro s h; exact h
  | cons op ops ih =>
    intro s h
    apply ih
    cases op with
    | insert r => exact inv_Insert h
    | delete mid now => exact inv_Delete h
    | sweep now => exact inv_Sweep h

/-- C4: after every sequence of Insert, Delete and Sweep operations, the
device-keyed secondary index contains exactly the live records of the
primary map under their device keys — every live record appears in its
device bucket, every bucket entry is a live record stored under its own
device key, and neither the primary map nor any bucket ever holds two
entries for the same mount ID (re-insertion never duplicates entries). -/
theorem device_index_consistent (ops : List Op) :
    tableInvariant (runOps ops).table :=
  inv_runOps ops emptyState inv_emptyTable

theorem device_index_consistent_witness :
    tableInvariant (runOps
      [Op.insert { mountID := 1, parentMountID := 0, groupID := 0, device := 3,
                   mountPointStr := "/p", rootStr := "/", fsType := "ext4" },
       Op.insert { mountID := 1, parentMountID := 0, groupID := 0, device := 4,
                   mountPointStr := "/q", rootStr := "/", fsType := "ext4" },
       Op.delete 1 0, Op.sweep 10]).table :=
  device_index_consistent _


end MountResolver

namespace MountResolver

/-! Claim C1: cascading delete versus the exported Delete. -/

/-- Concrete parent record for C1. -/
def c1parent : Mount :=
  { mountID := 1, parentMountID := 0, groupID := 0, device := 3,
    mountPointStr := "/p", rootStr := "/", fsType := "ext4" }

/-- Concrete child record for C1. -/
def c1child : Mount :=
  { mountID := 2, parentMountID := 1, groupID := 0, device := 4,
    mountPointStr := "/c", rootStr := "/", fsType := "ext4" }

/-- Concrete resolver state for C1: parent (mount 1) and child (mount 2). -/
def c1state : State := Insert (Insert emptyState c1parent) c1child

/-- C1 as stated is false of the code: after `Delete` of the parent
(mount 1), `Get` on the direct child (mount 2) still returns the child —
the internal resolution even reports a cache hit, not `MountNotFound` —
because the exported `Delete` only schedules the parent on the delete
queue; the cascade runs only when a record is actually removed. -/
theorem delete_leaves_children_counterexample :
    (Get (fun _ => none) (Delete c1state 1 100).1 2 0).2
      = some { record := c1child, serial := 1 } ∧
    (resolveMount (fun _ => none) (Delete c1state 1 100).1 2 0).2
      = Except.ok { record := c1child, serial := 1 } :=
  ⟨rfl, rfl⟩

/-- C1 amended: the cascade runs at actual removal time, not at `Delete`
time.  When a record is truly removed from the table (the internal
`delete`, run at sweep expiry or on replacement by `insert`), every live
record whose `parentMountID` equals the removed record's mount ID is
removed immediately and recursively, and when the removed record is an
overlay filesystem every other record of its device bucket is removed as
well; the exported `Delete` itself leaves the table unchanged and only
appends the record to the grace-period delete queue, so a direct child is
still resolvable via `Get` after `Delete` and before any sweep. -/
theorem removal_cascades_children_immediately
    (provider : Nat → Option (List Mount)) (s : State) (pid tnow : Nat)
    (pm c : StoredMount)
    (hpm : lookupMount s.table pid = some pm)
    (hc : lookupMount s.table c.record.mountID = some c)
    (hparent : c.record.parentMountID = pid)
    (hne : c.record.mountID ≠ pid) (hnz : c.record.mountID ≠ 0) :
    lookupMount (removeRecord s.table pid) c.record.mountID = none ∧
    (∀ x ∈ devGet s.table.devices pm.record.device,
       pm.record.isOverlayFS = true → x.record.device = pm.record.device →
       x.record.mountID ≠ pid →
       lookupMount (removeRecord s.table pid) x.record.mountID = none) ∧
    (Delete s pid tnow).1.table = s.table ∧
    (Delete s pid tnow).1.deleteQueue
      = s.deleteQueue ++ [{ mount := pm, timeoutAt := tnow + mountGracePeriod }] ∧
    (Get provider (Delete s pid tnow).1 c.record.mountID 0).2 = some c := by
  have hpmid : pm.record.mountID = pid := lookupMount_mountID hpm
  have hcm : c ∈ s.table.mounts := mem_of_lookupMount hc
  have hct1 : c ∈ (removeEntry s.table pid).mounts := by
    unfold removeEntry
    rw [hpm]
    exact List.mem_filter.mpr ⟨hcm, by simpa using hne⟩
  have hcmem : c.record.mountID ∈ cascadeTargets (removeEntry s.table pid) pm := by
    apply List.mem_append_left
    exact List.mem_map.mpr ⟨c, List.mem_filter.mpr ⟨hct1, by simp [hparent, hpmid]⟩, rfl⟩
  have hDel1 : (Delete s pid tnow).1.table = s.table := by
    simp [Delete, hpm]
  have hDel2 : (Delete s pid tnow).1.deleteQueue
      = s.deleteQueue ++ [{ mount := pm, timeoutAt := tnow + mountGracePeriod }] := by
    simp [Delete, hpm]
  refine ⟨lookupMount_removeRecord_cascade hpm hcmem, ?_, hDel1, hDel2, ?_⟩
  · intro x hx hovl hdev hxne
    have hx1 : x ∈ devGet (removeEntry s.table pid).devices pm.record.device := by
      unfold removeEntry
      rw [hpm]
      dsimp only
      rw [devGet_devDel, if_pos rfl]
      exact List.mem_filter.mpr ⟨hx, by simpa using hxne⟩
    have hxmem : x.record.mountID ∈ cascadeTargets (removeEntry s.table pid) pm := by
      apply List.mem_append_right
      rw [if_pos hovl]
      exact List.mem_map.mpr ⟨x, List.mem_filter.mpr ⟨hx1, by simp [hdev, hpmid, hxne]⟩, rfl⟩
    exact lookupMount_removeRecord_cascade hpm hxmem
  · simp [Get, resolveMount, hDel1, hnz, hc]

theorem removal_cascades_children_immediately_witness :
    lookupMount c1state.table 1 = some { record := c1parent, serial := 0 } ∧
    lookupMount (removeRecord c1state.table 1) 2 = none ∧
    (Get (fun _ => none) (Delete c1state 1 0).1 2 0).2
      = some { record := c1child, serial := 1 } :=
  ⟨by decide,
   (removal_cascades_children_immediately (fun _ => none) c1state 1 0
      { record := c1parent, serial := 0 } { record := c1child, serial := 1 }
      (by decide) (by decide) (by decide) (by decide) (by decide)).1,
   (removal_cascades_children_immediately (fun _ => none) c1state 1 0
      { record := c1parent, serial := 0 } { record := c1child, serial := 1 }
      (by decide) (by decide) (by decide) (by decide) (by decide)).2.2.2.2⟩

end MountResolver

namespace MountResolver

/-- C2: for a record inserted and then deleted, sweeping before the grace
deadline leaves the record in the table; sweeping at or after the deadline
removes it; but if a new Insert with the same mount ID happened after the
Delete, the sweep's identity check (scheduled record instance versus
currently stored instance) prevents removal of the newer record. -/
theorem sweep_grace_and_identity (r r2 : Mount) (tDel now : Nat)
    (hid : r2.mountID = r.mountID) :
    (now < tDel + mountGracePeriod →
       lookupMount (Sweep (Delete (Insert emptyState r) r.mountID tDel).1 now).table r.mountID
         = some { record := r, serial := 0 }) ∧
    (tDel + mountGracePeriod ≤ now →
       lookupMount (Sweep (Delete (Insert emptyState r) r.mountID tDel).1 now).table r.mountID
         = none) ∧
    (tDel + mountGracePeriod ≤ now →
       lookupMount
           (Sweep (Insert (Delete (Insert emptyState r) r.mountID tDel).1 r2) now).table
           r.mountID
         = some { record := r2, serial := 1 }) := by
  have hIns : Insert emptyState r =
      { table := { mounts := [{ record := r, serial := 0 }],
                   devices := [(r.device, [{ record := r, serial := 0 }])] },
        deleteQueue := [], nextSerial := 1,
        hits := 0, misses := 0, procHits := 0, procMisses := 0 } := rfl
  have hlk : lookupMount
      { mounts := [{ record := r, serial := 0 }],
        devices := [(r.device, [{ record := r, serial := 0 }])] } r.mountID
      = some { record := r, serial := 0 } :=
    List.find?_cons_of_pos _ (by simp)
  have hDel : (Delete (Insert emptyState r) r.mountID tDel).1 =
      { table := { mounts := [{ record := r, serial := 0 }],
                   devices := [(r.device, [{ record := r, serial := 0 }])] },
        deleteQueue := [{ mount := { record := r, serial := 0 },
                          timeoutAt := tDel + mountGracePeriod }],
        nextSerial := 1, hits := 0, misses := 0, procHits := 0, procMisses := 0 } := by
    rw [hIns]
    simp [Delete, hlk]
  refine ⟨?_, ?_, ?_⟩
  · intro hlt
    rw [hDel]
    simp only [Sweep, sweepQueue]
    rw [if_pos hlt]
    exact hlk
  · intro hge
    have hnlt : ¬ now < tDel + mountGracePeriod := by omega
    rw [hDel]
    simp only [Sweep, sweepQueue]
    rw [if_neg hnlt]
    dsimp only
    rw [hlk]
    simp only [beq_self_eq_true, if_true]
    exact lookupMount_removeStep_self (Nat.le_add_left 1 _) _ _
  · intro hge
    have hnlt : ¬ now < tDel + mountGracePeriod := by omega
    have hrm : removeRecord
        { mounts := [{ record := r, serial := 0 }],
          devices := [(r.device, [{ record := r, serial := 0 }])] } r2.mountID
        = { mounts := [], devices := [(r.device, [])] } := by
      rw [hid]
      simp [removeRecord, removeStep, hlk, removeEntry, cascadeTargets, devDel,
            devSet, devGet]
    have hs3 : Insert (Delete (Insert emptyState r) r.mountID tDel).1 r2 =
        { table := { mounts := [{ record := r2, serial := 1 }],
                     devices := devAdd [(r.device, [])] r2.device
                                  { record := r2, serial := 1 } },
          deleteQueue := [{ mount := { record := r, serial := 0 },
                            timeoutAt := tDel + mountGracePeriod }],
          nextSerial := 2, hits := 0, misses := 0, procHits := 0, procMisses := 0 } := by
      rw [hDel]
      simp only [Insert, hrm]
      rfl
    rw [hs3]
    have hlk3 : lookupMount
        { mounts := [{ record := r2, serial := 1 }],
          devices := devAdd [(r.device, [])] r2.device { record := r2, serial := 1 } }
        r.mountID = some { record := r2, serial := 1 } :=
      List.find?_cons_of_pos _ (by simp [hid])
    simp only [Sweep, sweepQueue]
    rw [if_neg hnlt]
    dsimp only
    rw [hlk3]
    simp only [Nat.one_ne_zero, beq_iff_eq, if_false]
    exact hlk3

/-- Concrete record for the C2 witness. -/
def c2rec : Mount :=
  { mountID := 3, parentMountID := 0, groupID := 0, device := 9,
    mountPointStr := "/m", rootStr := "/", fsType := "ext4" }

/-- Concrete replacement record (same mount ID) for the C2 witness. -/
def c2rec2 : Mount :=
  { mountID := 3, parentMountID := 0, groupID := 0, device := 11,
    mountPointStr := "/n", rootStr := "/", fsType := "ext4" }

theorem sweep_grace_and_identity_witness :
    c2rec2.mountID = c2rec.mountID ∧
    10 + mountGracePeriod ≤ 20 ∧
    lookupMount (Sweep (Delete (Insert emptyState c2rec) c2rec.mountID 10).1 20).table
        c2rec.mountID = none ∧
    lookupMount
        (Sweep (Insert (Delete (Insert emptyState c2rec) c2rec.mountID 10).1 c2rec2) 20).table
        c2rec.mountID = some { record := c2rec2, serial := 1 } :=
  ⟨rfl, by decide,
   (sweep_grace_and_identity c2rec c2rec2 10 20 rfl).2.1 (by decide),
   (sweep_grace_and_identity c2rec c2rec2 10 20 rfl).2.2 (by decide)⟩

end MountResolver

namespace MountResolver

/-! C3: termination of the parent-path walk under cyclic parent links. -/

theorem length_filter_mono {p q : Nat → Bool} (h : ∀ x, p x = true → q x = true) :
    ∀ l : List Nat, (l.filter p).length ≤ (l.filter q).length := by
  intro l
  induction l with
  | nil => exact Nat.le_refl _
  | cons a l ih =>
    simp only [List.filter_cons]
    by_cases hp : p a = true
    · rw [if_pos hp, if_pos (h a hp)]
      exact Nat.succ_le_succ ih
    · rw [if_neg hp]
      by_cases hq : q a = true
      · rw [if_pos hq]
        exact Nat.le_succ_of_le ih
      · rw [if_neg hq]
        exact ih

theorem unvisited_cons_lt {t : MountTable} {visited : List Nat} {mid : Nat}
    (hmem : mid ∈ t.mounts.map fun m => m.record.mountID)
    (hnv : visited.contains mid = false) :
    unvisitedCount t (mid :: visited) < unvisitedCount t visited := by
  unfold unvisitedCount
  revert hmem
  generalize (t.mounts.map fun m => m.record.mountID) = keys
  intro hmem
  induction keys with
  | nil => cases hmem
  | cons a keys ih =>
    simp only [List.filter_cons]
    by_cases ha : a = mid
    · subst ha
      have h1 : (!((a :: visited).contains a)) = false := by
        rw [List.contains_cons]
        simp
      have h2 : (!(visited.contains a)) = true := by
        rw [hnv]
        rfl
      rw [h1, h2]
      simp only [Bool.false_eq_true, if_false, if_true, List.length_cons]
      refine Nat.lt_succ_of_le (length_filter_mono ?_ keys)
      intro x hx
      simp only [Bool.not_eq_eq_eq_not, Bool.not_true, List.contains_cons] at hx ⊢
      exact (Bool.or_eq_false_iff.mp hx).2
    · have hpa : (!((mid :: visited).contains a)) = (!(visited.contains a)) := by
        have : (a == mid) = false := by simpa using ha
        rw [List.contains_cons, this, Bool.false_or]
      rw [hpa]
      have hmem' : mid ∈ keys := by
        rcases List.mem_cons.mp hmem with hh | hh
        · exact absurd hh.symm ha
        · exact hh
      by_cases hq : (!(visited.contains a)) = true
      · rw [if_pos hq, if_pos hq]
        simpa using Nat.succ_lt_succ (ih hmem')
      · rw [if_neg hq, if_neg hq]
        exact ih hmem'


theorem getParentPathFuel_congr (t : MountTable) :
    ∀ (n m : Nat) (visited : List Nat) (mid : Nat),
      unvisitedCount t visited + 1 ≤ n → unvisitedCount t visited + 1 ≤ m →
      getParentPathFuel n t visited mid = getParentPathFuel m t visited mid := by
  intro n
  induction n using Nat.strong_induction_on with
  | _ n ih =>
    intro m visited mid hn hm
    cases n with
    | zero => omega
    | succ n' =>
      cases m with
      | zero => omega
      | succ m' =>
        unfold getParentPathFuel
        cases hlk : lookupMount t mid with
        | none => rfl
        | some mount =>
          dsimp only
          by_cases hv : visited.contains mid = true
          · rw [if_pos hv, if_pos hv]
          · rw [if_neg hv, if_neg hv]
            by_cases hp : (mount.record.parentMountID != 0) = true
            · rw [if_pos hp, if_pos hp]
              have hkey : mid ∈ t.mounts.map fun x => x.record.mountID :=
                List.mem_map.mpr ⟨mount, mem_of_lookupMount hlk, lookupMount_mountID hlk⟩
              have hlt : unvisitedCount t (mid :: visited) < unvisitedCount t visited :=
                unvisited_cons_lt hkey (by simpa using hv)
              have hrec : getParentPathFuel n' t (mid :: visited) mount.record.parentMountID
                  = getParentPathFuel m' t (mid :: visited) mount.record.parentMountID :=
                ih n' (Nat.lt_succ_self n') m' _ _ (by omega) (by omega)
              rw [hrec]
            · rw [if_neg hp, if_neg hp]

/-- C3: the parent-path walk terminates on every mount table, including one
whose parent links form a cycle: the recursion is bounded by the size of the
per-call visited set — any call-stack budget of at least the number of
not-yet-visited live mount IDs plus one computes the same result as the
canonical bound, so the walk never needs a deeper stack and `getParentPath`
(the canonical instantiation with an empty visited set) is total. -/
theorem getParentPath_terminates (t : MountTable) (fuel : Nat) (visited : List Nat)
    (mid : Nat) (hfuel : unvisitedCount t visited + 1 ≤ fuel) :
    getParentPathFuel fuel t visited mid
      = getParentPathFuel (unvisitedCount t visited + 1) t visited mid ∧
    (visited = [] → getParentPathFuel fuel t visited mid = getParentPath t mid) := by
  have h := getParentPathFuel_congr t fuel (unvisitedCount t visited + 1) visited mid
    hfuel (Nat.le_refl _)
  refine ⟨h, ?_⟩
  intro hempty
  subst hempty
  exact h

/-- A mount table whose two records form a parent-link cycle (1 → 2 → 1). -/
def c3cyclic : MountTable :=
  { mounts :=
      [{ record := { mountID := 1, parentMountID := 2, groupID := 0, device := 0,
                     mountPointStr := "/a", rootStr := "/", fsType := "ext4" },
         serial := 0 },
       { record := { mountID := 2, parentMountID := 1, groupID := 0, device := 0,
                     mountPointStr := "/b", rootStr := "/", fsType := "ext4" },
         serial := 1 }],
    devices := [] }

theorem getParentPath_terminates_witness :
    unvisitedCount c3cyclic [] + 1 ≤ 50 ∧
    getParentPathFuel 50 c3cyclic [] 1
      = getParentPathFuel (unvisitedCount c3cyclic [] + 1) c3cyclic [] 1 :=
  ⟨by decide, (getParentPath_terminates c3cyclic 50 [] 1 (by decide)).1⟩

end MountResolver

namespace MountResolver

/-! Claims C5, C6 and C7: the lookup API. -/

/-- C5 as stated is false of the code: the exported `Get` discards the
resolution error (`mount, _ := mr.resolveMount(mountID, pid)`), so at
mount ID 0 it returns a nil mount and no error value at all — the
`MountUndefined` error is visible only from the internal `resolveMount`. -/
theorem get_zero_error_counterexample :
    Get (fun _ => none) emptyState 0 5 = (emptyState, none) ∧
    (resolveMount (fun _ => none) emptyState 0 5).2
      = Except.error ResolverErr.MountUndefined :=
  ⟨rfl, rfl⟩

/-- C5 amended: for every pid, the internal `resolveMount` with mount ID 0
short-circuits to the `MountUndefined` error — distinct from
`MountNotFound` — with the state returned unchanged (no counter, table,
cache or provider re-sync activity), and the exported `Get` returns a nil
mount with that error discarded, also leaving the state unchanged. -/
theorem resolveMount_zero_undefined
    (provider : Nat → Option (List Mount)) (s : State) (pid : Nat) :
    resolveMount provider s 0 pid = (s, Except.error ResolverErr.MountUndefined) ∧
    Get provider s 0 pid = (s, none) ∧
    ResolverErr.MountUndefined ≠ ResolverErr.MountNotFound :=
  ⟨rfl, rfl, by decide⟩

/-- C6: when resolution fails inside `GetMountPath` — the internal
`resolveMount` returns any error: undefined ID, lookup miss after the
optional pid re-sync, or a provider failure — the operation returns
empty-string path fields together with a nil error, so a caller can detect
the failure only via the empty-string sentinel. -/
theorem getMountPath_failure_empty_nil
    (provider : Nat → Option (List Mount)) (s : State) (mid pid : Nat)
    (e : ResolverErr)
    (h : (resolveMount provider s mid pid).2 = Except.error e) :
    (GetMountPath provider s mid pid).2 = ("", "", "", none) := by
  simp [GetMountPath, h]

theorem getMountPath_failure_empty_nil_witness :
    (resolveMount (fun _ => none) emptyState 1 0).2
      = Except.error ResolverErr.MountNotFound ∧
    (GetMountPath (fun _ => none) emptyState 1 0).2 = ("", "", "", none) :=
  ⟨rfl,
   getMountPath_failure_empty_nil (fun _ => none) emptyState 1 0
     ResolverErr.MountNotFound rfl⟩

/-- Record 5 of the C7 scenario: parent 0, mount point "/". -/
def c7r5 : Mount :=
  { mountID := 5, parentMountID := 0, groupID := 0, device := 1,
    mountPointStr := "/", rootStr := "/", fsType := "ext4" }

/-- Record 7 of the C7 scenario: parent 5, mount point "/data". -/
def c7r7 : Mount :=
  { mountID := 7, parentMountID := 5, groupID := 0, device := 2,
    mountPointStr := "/data", rootStr := "/", fsType := "ext4" }

/-- The C7 scenario state: both records inserted into an empty resolver. -/
def c7state : State := Insert (Insert emptyState c7r5) c7r7

/-- C7 as stated is false of the code: `Delete(5)` only appends mount 5 to
the delete queue, mount 7 stays in the table, and `Get(7, 0)` — before any
sweep — still returns mount 7 (a cache hit), not a `MountNotFound` miss. -/
theorem scenario_get_after_delete_counterexample :
    (Get (fun _ => none) (Delete c7state 5 100).1 7 0).2
      = some { record := c7r7, serial := 1 } ∧
    (resolveMount (fun _ => none) (Delete c7state 5 100).1 7 0).2
      = Except.ok { record := c7r7, serial := 1 } :=
  ⟨rfl, rfl⟩

/-- C7 amended: `GetMountPointFullPath 7` returns "/data" after the two
inserts; after `Delete 5` the child is still returned by `Get (7, 0)`
before any sweep; and once a sweep runs at or after the grace deadline the
parent's removal cascades to the child, so `Get (7, 0)` returns a nil mount
and the internal resolution reports `MountNotFound`. -/
theorem scenario_insert_delete_sweep :
    GetMountPointFullPath c7state 7 = "/data" ∧
    (∀ (provider : Nat → Option (List Mount)) (tDel : Nat),
       (Get provider (Delete c7state 5 tDel).1 7 0).2
         = some { record := c7r7, serial := 1 }) ∧
    (∀ (provider : Nat → Option (List Mount)) (tDel now : Nat),
       tDel + mountGracePeriod ≤ now →
       (resolveMount provider (Sweep (Delete c7state 5 tDel).1 now) 7 0).2
         = Except.error ResolverErr.MountNotFound ∧
       (Get provider (Sweep (Delete c7state 5 tDel).1 now) 7 0).2 = none) := by
  refine ⟨by decide, fun provider tDel => rfl, ?_⟩
  intro provider tDel now hge
  have hnlt : ¬ now < tDel + mountGracePeriod := by omega
  have hDel : (Delete c7state 5 tDel).1 =
      { table := c7state.table,
        deleteQueue := [{ mount := { record := c7r5, serial := 0 },
                          timeoutAt := tDel + mountGracePeriod }],
        nextSerial := 2, hits := 0, misses := 0, procHits := 0, procMisses := 0 } := rfl
  have htab : (Sweep (Delete c7state 5 tDel).1 now).table = removeRecord c7state.table 5 := by
    rw [hDel]
    simp only [Sweep, sweepQueue]
    rw [if_neg hnlt]
    rfl
  have hgone : lookupMount (removeRecord c7state.table 5) 7 = none := by decide
  constructor
  · simp [resolveMount, htab, hgone]
  · simp [Get, resolveMount, htab, hgone]

theorem scenario_insert_delete_sweep_witness :
    10 + mountGracePeriod ≤ 20 ∧
    (resolveMount (fun _ => none) (Sweep (Delete c7state 5 10).1 20) 7 0).2
      = Except.error ResolverErr.MountNotFound :=
  ⟨by decide,
   (scenario_insert_delete_sweep.2.2 (fun _ => none) 10 20 (by decide)).1⟩

end MountResolver

namespace Goflowlib

/-! C8 and C9: the label-to-tag loop and the error contract of
`ConvertMetric`. -/

theorem convertLabelStep_eq (mm : mappedMetric) (tags : List String) (lp : LabelPair) :
    convertLabelStep mm tags lp = tags ++ (tagOfLabel mm lp).toList := by
  unfold convertLabelStep tagOfLabel
  by_cases h1 : (!(isAllowedTagKey mm lp.getName)) = true
  · rw [if_pos h1, if_pos h1]
    simp
  · rw [if_neg h1, if_neg h1]
    dsimp only
    split
    · simp
    · simp

theorem foldl_convertLabelStep (mm : mappedMetric) :
    ∀ (labels : List LabelPair) (acc : List String),
      labels.foldl (convertLabelStep mm) acc
        = acc ++ labels.filterMap (tagOfLabel mm) := by
  intro labels
  induction labels with
  | nil => intro acc; simp
  | cons lp labels ih =>
    intro acc
    rw [List.foldl_cons, ih, convertLabelStep_eq]
    cases h : tagOfLabel mm lp <;> simp [List.filterMap_cons, h]

theorem append_extraTags (tags extra : List String) :
    (if extra.length > 0 then tags ++ extra else tags) = tags ++ extra := by
  by_cases h : extra.length > 0
  · rw [if_pos h]
  · rw [if_neg h]
    have hnil : extra = [] := List.length_eq_zero.mp (by omega)
    simp [hnil]

/-- C8: on a successfully mapped metric, every tag in the result comes from
a label whose original key is in the mapped metric's `allowedTagKeys` list
(other labels contribute nothing), with the label value rewritten by the
`valueRemapper` first and the key replaced by its `keyRemapper` image when
one exists; a label whose remapped value (or key) is empty contributes no
tag; and the mapped metric's `extraTags` are always appended at the end. -/
theorem convertMetric_tags_from_allowed_labels (metric : Metric) (mf : MetricFamily)
    (mm : mappedMetric) (hmap : lookupMapping mf.getName = some mm)
    (htype : mf.getType = PromMetricType.counter ∨ mf.getType = PromMetricType.gauge) :
    (ConvertMetric metric mf).tags
      = metric.label.filterMap (tagOfLabel mm) ++ mm.extraTags := by
  rcases htype with h | h <;>
    simp only [ConvertMetric, hmap, h] <;>
    rw [append_extraTags, foldl_convertLabelStep, List.nil_append]

/-- Concrete metric for the C8 witness (mirrors the repository's own test
"FEATURE ignore non allowed field"). -/
def c8metric : Metric :=
  { counter := some 10, gauge := none,
    label := [{ name := some "worker", value := some "1" },
              { name := some "notAllowedField", value := some "1" }] }

/-- Concrete metric family for the C8 witness. -/
def c8family : MetricFamily :=
  { name := some "flow_decoder_count", mtype := some PromMetricType.counter }

/-- The mapped metric stored under "flow_decoder_count". -/
def c8mapped : mappedMetric :=
  { name := "decoder.messages",
    allowedTagKeys := ["name", "worker"],
    valueRemapper := [("name", remapGoflowType)] }

theorem convertMetric_tags_witness :
    lookupMapping c8family.getName = some c8mapped ∧
    (ConvertMetric c8metric c8family).tags
      = c8metric.label.filterMap (tagOfLabel c8mapped) ++ c8mapped.extraTags :=
  ⟨rfl, convertMetric_tags_from_allowed_labels c8metric c8family c8mapped rfl (Or.inl rfl)⟩

/-- C9: `ConvertMetric` returns a non-nil error exactly when the family name
has no entry in `metricNameMapping` or the family type is neither COUNTER
nor GAUGE; on error the returned type, name, value and tags are the zero
values; on success a COUNTER family yields `metrics.MonotonicCountType` with
the counter's value and a GAUGE family yields `metrics.GaugeType` with the
gauge's value. -/
theorem convertMetric_error_cases (metric : Metric) (mf : MetricFamily) :
    ((ConvertMetric metric mf).err ≠ none ↔
       (lookupMapping mf.getName = none ∨
        (mf.getType ≠ PromMetricType.counter ∧ mf.getType ≠ PromMetricType.gauge))) ∧
    ((ConvertMetric metric mf).err ≠ none →
       (ConvertMetric metric mf).ddType = 0 ∧ (ConvertMetric metric mf).name = "" ∧
       (ConvertMetric metric mf).value = 0 ∧ (ConvertMetric metric mf).tags = []) ∧
    ((ConvertMetric metric mf).err = none → mf.getType = PromMetricType.counter →
       (ConvertMetric metric mf).ddType = metrics.MonotonicCountType ∧
       (ConvertMetric metric mf).value = metric.getCounterValue) ∧
    ((ConvertMetric metric mf).err = none → mf.getType = PromMetricType.gauge →
       (ConvertMetric metric mf).ddType = metrics.GaugeType ∧
       (ConvertMetric metric mf).value = metric.getGaugeValue) := by
  cases hmap : lookupMapping mf.getName with
  | none => simp [ConvertMetric, hmap]
  | some mm =>
    cases htype : mf.getType with
    | counter => simp [ConvertMetric, hmap, htype]
    | gauge => simp [ConvertMetric, hmap, htype]
    | summary => simp [ConvertMetric, hmap, htype]
    | untyped => simp [ConvertMetric, hmap, htype]
    | histogram => simp [ConvertMetric, hmap, htype]

/-- Concrete unmapped family for the C9 witness. -/
def c9family : MetricFamily :=
  { name := some "flow_unknown_metric", mtype := some PromMetricType.counter }

theorem convertMetric_error_witness :
    lookupMapping c9family.getName = none ∧
    (ConvertMetric c8metric c9family).err ≠ none :=
  ⟨rfl, (convertMetric_error_cases c8metric c9family).1.mpr (Or.inl rfl)⟩

end Goflowlib

namespace DockerProxy

/-! C10: soundness of `extractProxyTarget`. -/

theorem parseLoop_ip :
    ∀ (l : List String) (acc acc' : ContainerAddr),
      parseLoop l acc = some acc' →
      acc'.ip = acc.ip ∨ "-container-ip" ∈ l := by
  intro l
  induction l with
  | nil =>
    intro acc acc' h
    unfold parseLoop at h
    exact Or.inl (congrArg ContainerAddr.ip (Option.some.inj h)).symm
  | cons a l ih =>
    intro acc acc' h
    cases l with
    | nil =>
      unfold parseLoop at h
      exact Or.inl (congrArg ContainerAddr.ip (Option.some.inj h)).symm
    | cons b rest =>
      unfold parseLoop at h
      by_cases h1 : (a == "-container-ip") = true
      · exact Or.inr (by rw [beq_iff_eq] at h1; rw [h1]; exact List.mem_cons_self _ _)
      · rw [if_neg h1] at h
        by_cases h2 : (a == "-container-port") = true
        · rw [if_pos h2] at h
          cases hp : goParseInt32 b with
          | none => rw [hp] at h; cases h
          | some port =>
            rw [hp] at h
            rcases ih _ _ h with hh | hh
            · exact Or.inl hh
            · exact Or.inr (List.mem_cons_of_mem _ hh)
        · rw [if_neg h2] at h
          by_cases h3 : (a == "-proto") = true
          · rw [if_pos h3] at h
            cases hp : connectionTypeValue b with
            | none => rw [hp] at h; cases h
            | some proto =>
              rw [hp] at h
              rcases ih _ _ h with hh | hh
              · exact Or.inl hh
              · exact Or.inr (List.mem_cons_of_mem _ hh)
          · rw [if_neg h3] at h
            rcases ih _ _ h with hh | hh
            · exact Or.inl hh
            · exact Or.inr (List.mem_cons_of_mem _ hh)

theorem parseLoop_port :
    ∀ (l : List String) (acc acc' : ContainerAddr),
      parseLoop l acc = some acc' →
      acc'.port = acc.port ∨ "-container-port" ∈ l := by
  intro l
  induction l with
  | nil =>
    intro acc acc' h
    unfold parseLoop at h
    exact Or.inl (congrArg ContainerAddr.port (Option.some.inj h)).symm
  | cons a l ih =>
    intro acc acc' h
    cases l with
    | nil =>
      unfold parseLoop at h
      exact Or.inl (congrArg ContainerAddr.port (Option.some.inj h)).symm
    | cons b rest =>
      unfold parseLoop at h
      by_cases h1 : (a == "-container-ip") = true
      · rw [if_pos h1] at h
        rcases ih _ _ h with hh | hh
        · exact Or.inl hh
        · exact Or.inr (List.mem_cons_of_mem _ hh)
      · rw [if_neg h1] at h
        by_cases h2 : (a == "-container-port") = true
        · exact Or.inr (by rw [beq_iff_eq] at h2; rw [h2]; exact List.mem_cons_self _ _)
        · rw [if_neg h2] at h
          by_cases h3 : (a == "-proto") = true
          · rw [if_pos h3] at h
            cases hp : connectionTypeValue b with
            | none => rw [hp] at h; cases h
            | some proto =>
              rw [hp] at h
              rcases ih _ _ h with hh | hh
              · exact Or.inl hh
              · exact Or.inr (List.mem_cons_of_mem _ hh)
          · rw [if_neg h3] at h
            rcases ih _ _ h with hh | hh
            · exact Or.inl hh
            · exact Or.inr (List.mem_cons_of_mem _ hh)

/-- C10: `extractProxyTarget` returns a proxy only when the first token of
the (possibly space-split) command line ends with "docker-proxy" and the
arguments supply both a `-container-ip` value and a `-container-port`
value; every returned proxy carries the process's pid, an empty (not yet
discovered) proxy IP, a non-empty target IP and a nonzero target port; and
an unparsable `-container-port` value or an unknown `-proto` name makes the
flag scan — and hence the extraction — return nil. -/
theorem extractProxyTarget_sound (p : Process) (pr : Proxy)
    (h : extractProxyTarget p = some pr) :
    pr.pid = p.pid ∧ pr.ip = "" ∧ pr.target.ip ≠ "" ∧ pr.target.port ≠ 0 ∧
    (∃ c0 cs, effectiveCmdline p = c0 :: cs ∧ strEndsWith c0 "docker-proxy" = true) ∧
    "-container-ip" ∈ effectiveCmdline p ∧
    "-container-port" ∈ effectiveCmdline p ∧
    (∀ (b : String) (rest : List String) (acc : ContainerAddr),
       goParseInt32 b = none →
       parseLoop ("-container-port" :: b :: rest) acc = none) ∧
    (∀ (b : String) (rest : List String) (acc : ContainerAddr),
       connectionTypeValue b = none →
       parseLoop ("-proto" :: b :: rest) acc = none) := by
  have hbadport : ∀ (b : String) (rest : List String) (acc : ContainerAddr),
      goParseInt32 b = none →
      parseLoop ("-container-port" :: b :: rest) acc = none := by
    intro b rest acc hb
    unfold parseLoop
    rw [if_neg (by decide), if_pos (by decide), hb]
  have hbadproto : ∀ (b : String) (rest : List String) (acc : ContainerAddr),
      connectionTypeValue b = none →
      parseLoop ("-proto" :: b :: rest) acc = none := by
    intro b rest acc hb
    unfold parseLoop
    rw [if_neg (by decide), if_neg (by decide), if_pos (by decide), hb]
  unfold extractProxyTarget at h
  by_cases hemp : (p.cmdline.length == 0) = true
  · rw [if_pos hemp] at h; cases h
  · rw [if_neg hemp] at h
    cases hcmd : effectiveCmdline p with
    | nil => rw [hcmd] at h; cases h
    | cons c0 rest =>
      rw [hcmd] at h
      dsimp only at h
      by_cases hend : (!(strEndsWith c0 "docker-proxy")) = true
      · rw [if_pos hend] at h; cases h
      · rw [if_neg hend] at h
        cases hpl : parseLoop (c0 :: rest) { ip := "", port := 0, protocol := .tcp } with
        | none => rw [hpl] at h; cases h
        | some target =>
          rw [hpl] at h
          dsimp only at h
          by_cases hzero : (target.ip == "" || target.port == 0) = true
          · rw [if_pos hzero] at h; cases h
          · rw [if_neg hzero] at h
            have hz := Bool.or_eq_false_iff.mp (Bool.eq_false_iff.mpr hzero)
            have hip : target.ip ≠ "" := by simpa using hz.1
            have hport : target.port ≠ 0 := by simpa using hz.2
            have hpr : pr = { pid := p.pid, ip := "", target := target } :=
              (Option.some.inj h).symm
            subst hpr
            refine ⟨rfl, rfl, hip, hport,
              ⟨c0, rest, rfl, by simpa using hend⟩, ?_, ?_, hbadport, hbadproto⟩
            · rcases parseLoop_ip _ _ _ hpl with hh | hh
              · exact absurd hh hip
              · exact hh
            · rcases parseLoop_port _ _ _ hpl with hh | hh
              · exact absurd hh hport
              · exact hh

/-- Concrete docker-proxy process for the C10 witness. -/
def c10proc : Process :=
  { pid := 42,
    cmdline := ["/usr/bin/docker-proxy", "-container-ip", "172.17.0.2",
                "-container-port", "8080", "-proto", "tcp"] }

/-- The proxy `extractProxyTarget` builds for `c10proc`. -/
def c10proxy : Proxy :=
  { pid := 42, ip := "",
    target := { ip := "172.17.0.2", port := 8080, protocol := ConnectionType.tcp } }

theorem extractProxyTarget_sound_witness :
    extractProxyTarget c10proc = some c10proxy ∧
    c10proxy.pid = c10proc.pid ∧ c10proxy.target.ip ≠ "" ∧ c10proxy.target.port ≠ 0 :=
  ⟨by decide,
   (extractProxyTarget_sound c10proc c10proxy (by decide)).1,
   (extractProxyTarget_sound c10proc c10proxy (by decide)).2.2.1,
   (extractProxyTarget_sound c10proc c10proxy (by decide)).2.2.2.1⟩

end DockerProxy
